import Mathlib

/-!
Verification development for the `ilmaotsija` weather-proxy application
(`src/ilmaotsija_projekt/prjc/app.py`).

The Python source is shallowly embedded as executable Lean definitions:

* strings are handled as `List Char` at the processing level (Python's
  `str.strip`, `str.split`, `re.sub` are modelled character by character;
  character classes such as `\s`, `\w`, `[A-Z]` are modelled over the
  ASCII range that the relevant checks in the source inspect);
* JSON numbers are modelled as exact rationals (`ℚ`), tagged with whether
  the Python value is an `int` (needed by the `isinstance(..., int)`
  check on humidity);
* the two `cachetools.TTLCache` instances are modelled as association
  lists of `(key, insertion time, value)` with the 1-hour TTL rule
  `valid ↔ now < inserted + 3600`; the capacity bound (1000/500 entries)
  is not reached in any scenario considered here and is not modelled;
* the external providers (geocoding, weather) are parameters: total
  functions standing for the successful-response path, or `Except`-valued
  oracles where error handling matters;
* `pycountry` (the country reference data set) is a parameter
  `okc : String → Bool` (validity of an alpha-2 code) resp.
  `fuzzy : String → Option String` (fuzzy name resolution), since the
  reference table is an external data file;
* Python's `set(...)` iteration order (used by the forecast code's
  `max(set(xs), key=xs.count)`) is unspecified and hash-dependent; it is
  modelled as an explicit enumeration parameter
  `setOrder : List String → List String` which is required to enumerate
  the distinct elements of its input.
-/

/-- Whitespace characters of Python's `str.strip` / regex `\s`
(ASCII range). -/
def isSpace (c : Char) : Bool :=
  c = ' ' || c = '\t' || c = '\n' || c = '\r' || c = Char.ofNat 11 || c = Char.ofNat 12

/-- Remove the maximal trailing run of characters satisfying `p`
(the tail half of Python's `str.strip`). -/
def dropTrail (p : Char → Bool) : List Char → List Char
  | [] => []
  | c :: cs =>
    match dropTrail p cs with
    | [] => if p c then [] else [c]
    | r => c :: r

/-- Python `str.strip(chars)`: drop leading and trailing characters
satisfying `p`. -/
def trimBoth (p : Char → Bool) (l : List Char) : List Char :=
  dropTrail p (List.dropWhile p l)

/-- Python `str.strip()` (whitespace). -/
def pyStrip (l : List Char) : List Char := trimBoth isSpace l

/-- Python `str.strip('-')`. -/
def stripDashes (l : List Char) : List Char := trimBoth (fun c => c = '-') l

/-- Python `str.split(sep)` for a single-character separator:
splitting an empty string gives `[""]`, and `n` separators give `n+1`
fields. -/
def pySplit (sep : Char) : List Char → List (List Char)
  | [] => [[]]
  | c :: cs =>
    if c = sep then [] :: pySplit sep cs
    else
      match pySplit sep cs with
      | [] => [[c]]
      | p :: ps => (c :: p) :: ps

/-- One pass of `re.sub(p+, rep, s)`: every maximal run of characters
satisfying `p` is replaced by the single character `rep`.  The flag
tracks whether the previous character was part of a run. -/
def collapseRuns (p : Char → Bool) (rep : Char) : Bool → List Char → List Char
  | _, [] => []
  | inRun, c :: cs =>
    if p c then
      if inRun then collapseRuns p rep true cs
      else rep :: collapseRuns p rep true cs
    else c :: collapseRuns p rep false cs

/-- `re.sub(r'\s+', ' ', s)`. -/
def collapseWs (l : List Char) : List Char := collapseRuns isSpace ' ' false l

/-- `re.sub(r'-+', '-', s)`. -/
def collapseDashes (l : List Char) : List Char := collapseRuns (fun c => c = '-') '-' false l

/-- Regex word character `\w` (ASCII range: letters, digits, underscore). -/
def isWordChar (c : Char) : Bool := c.isAlphanum || c = '_'

/-- `re.sub(r'\blinn\b', '', s, flags=re.IGNORECASE)`: delete every
standalone occurrence of the word "linn" (Estonian for "city").
`prevWord` records whether the character just before the current
position in the original string is a word character (for the `\b`
boundaries); the scan advances past each match, exactly like `re.sub`. -/
def subLinn : Bool → List Char → List Char
  | _, [] => []
  | prevWord, c1 :: c2 :: c3 :: c4 :: rest =>
    if !prevWord && c1.toLower = 'l' && c2.toLower = 'i' && c3.toLower = 'n'
        && c4.toLower = 'n'
        && (match rest with | [] => true | r :: _ => !isWordChar r) then
      subLinn true rest
    else c1 :: subLinn (isWordChar c1) (c2 :: c3 :: c4 :: rest)
  | _, c1 :: cs => c1 :: subLinn (isWordChar c1) cs

/-- The city-side processing pipeline of `normalize_location` (source
lines 111–116), in source order: strip, remove standalone "linn",
strip, collapse whitespace runs, strip, spaces to hyphens, collapse
hyphen runs, trim boundary hyphens. -/
def normCity (city : List Char) : List Char :=
  let c0 := pyStrip city
  let c1 := pyStrip (subLinn false c0)
  let c2 := pyStrip (collapseWs c1)
  let c3 := c2.map (fun c => if c = ' ' then '-' else c)
  stripDashes (collapseDashes c3)

/-- `normalize_location` (source lines 103–125).  `okc` stands for
`validate_country` (presence of the alpha-2 code in the `pycountry`
table). -/
def normalize_location (okc : String → Bool) (location : String) : Option String :=
  if location = "" then none
  else
    match pySplit ',' location.data with
    | [cityRaw, ccRaw] =>
      let cc := (pyStrip ccRaw).map Char.toUpper
      let city := normCity cityRaw
      if !okc (String.mk cc) then none
      else if city.length < 2 then none
      else some (String.mk (city ++ ',' :: cc))
    | _ => none

/-- Does `hay` start with `needle`? -/
def beginsWith : List Char → List Char → Bool
  | [], _ => true
  | _ :: _, [] => false
  | n :: ns, h :: hs => n = h && beginsWith ns hs

/-- Python's `needle in hay` substring test. -/
def containsSub (needle : List Char) : List Char → Bool
  | [] => needle.isEmpty
  | c :: cs => beginsWith needle (c :: cs) || containsSub needle cs

/-- Lower-case a character list (Python `str.lower`, ASCII range). -/
def lowerData (l : List Char) : List Char := l.map Char.toLower

/-- Regex class `[A-Z]`. -/
def isUpperAZ (c : Char) : Bool := 'A' ≤ c && c ≤ 'Z'

/-- `re.match(r'^[^,]+,[A-Z]{2}$', s)` as a Boolean: a non-empty
comma-free part, a comma, and exactly two upper-case letters (Python's
`$` also accepts one trailing newline). -/
def matchesLocFormat (l : List Char) : Bool :=
  let a := l.takeWhile (fun c => c != ',')
  match l.dropWhile (fun c => c != ',') with
  | ',' :: rest =>
    match rest with
    | [c1, c2] => !a.isEmpty && isUpperAZ c1 && isUpperAZ c2
    | [c1, c2, nl] => !a.isEmpty && isUpperAZ c1 && isUpperAZ c2 && nl = '\n'
    | _ => false
  | _ => false

/-- `validate_location` (source lines 127–146). -/
def validate_location (okc : String → Bool) (location : String) : Bool :=
  if location = "" then false
  else if containsSub "unknown city".data (lowerData location.data) then false
  else if !matchesLocFormat location.data then false
  else
    match pySplit ',' location.data with
    | [cityRaw, ccRaw] =>
      let city := pyStrip cityRaw
      let cc := pyStrip ccRaw
      if city.length < 2 then false
      else okc (String.mk cc)
    | _ => false

/-! ### Search pipeline (`/search`, source lines 162–306) -/

/-- A raw geocoding entry as consumed by `search_locations`.  `name` and
`country` use `""` for a missing or empty field (both are falsy for the
source's `loc.get('name')` / `loc.get('country')` checks and are treated
identically there); `lat`/`lon` are `loc.get('lat')` / `loc.get('lon')`
(absent → `none`); coordinates are exact numbers, only ever compared for
equality by the source. -/
structure GeoEntry where
  name : String
  country : String
  lat : Option ℚ
  lon : Option ℚ
  state : Option String
deriving DecidableEq

/-- One emitted search result object (source lines 210–218). -/
structure SearchResult where
  name : String
  country : String
  lat : Option ℚ
  lon : Option ℚ
  state : Option String
deriving DecidableEq

/-- Deduplication key `(name.lower(), country_code, lat, lon)`
(source line 206). -/
abbrev DKey := String × String × Option ℚ × Option ℚ

/-- Python `str.lower` (ASCII range). -/
def lowerStr (s : String) : String := String.mk (lowerData s.data)

/-- Country resolution inside the dedup scan (source lines 200–205):
codes longer than 2 characters go through `pycountry`'s fuzzy search
(the parameter `fuzzy`), whose failure drops the entry. -/
def resolveCC (fuzzy : String → Option String) (cc : String) : Option String :=
  if cc.length > 2 then fuzzy cc else some cc

def entryKey (cc : String) (loc : GeoEntry) : DKey :=
  (lowerStr loc.name, cc, loc.lat, loc.lon)

/-- Build the emitted result object; `state` is attached only when the
raw entry carries a truthy state label (source lines 216–217). -/
def mkResult (cc : String) (loc : GeoEntry) : SearchResult :=
  { name := loc.name, country := cc, lat := loc.lat, lon := loc.lon,
    state := match loc.state with
             | some s => if s = "" then none else some s
             | none => none }

/-- The dedup scan over raw entries (source lines 195–218, reused with a
carried-over `seen` set for the fallback re-query at lines 231–251).
Returns the final `seen` set together with the emitted results. -/
def dedupPass (fuzzy : String → Option String) :
    List DKey → List GeoEntry → List DKey × List SearchResult
  | seen, [] => (seen, [])
  | seen, loc :: rest =>
    if loc.name = "" || loc.country = "" then dedupPass fuzzy seen rest
    else
      match resolveCC fuzzy loc.country with
      | none => dedupPass fuzzy seen rest
      | some cc =>
        if entryKey cc loc ∈ seen then dedupPass fuzzy seen rest
        else
          let r := dedupPass fuzzy (entryKey cc loc :: seen) rest
          (r.1, mkResult cc loc :: r.2)

/-- Ordering used by `results.sort(key=lambda x: x['name'])`. -/
def nameLe (a b : SearchResult) : Prop := a.name ≤ b.name

instance : DecidableRel nameLe := fun a b => inferInstanceAs (Decidable (a.name ≤ b.name))

instance : IsTotal SearchResult nameLe := ⟨fun a b => le_total a.name b.name⟩

instance : IsTrans SearchResult nameLe := ⟨fun _ _ _ h1 h2 => le_trans h1 h2⟩

/-- Python's `list.sort(key=lambda x: x['name'])`: a stable sort by
name, modelled by stable insertion sort. -/
def sortByName (l : List SearchResult) : List SearchResult := List.insertionSort nameLe l

/-- Sort by name and slice `[(page-1)*100 : page*100]`
(source lines 220–223; the model covers pages ≥ 1). -/
def sortSlice (page : Nat) (results : List SearchResult) : List SearchResult :=
  ((sortByName results).drop ((page - 1) * 100)).take 100

/-- The hardcoded fallback-city table (source lines 63–70). -/
def FALLBACK_CITIES : List (String × String) :=
  [("AL", "Tirana"), ("EE", "Tallinn"), ("US", "New York"),
   ("AS", "Pago Pago"), ("BZ", "Belize City"), ("BS", "Nassau")]

/-- A TTL cache (`cachetools.TTLCache`, ttl = 3600) as an association
list of `(key, insertion time, value)`.  The capacity bound is not
modelled (never reached in the scenarios considered). -/
abbrev CacheT (V : Type) := List (String × Nat × V)

/-- `cache.get(key)`: the stored value, provided its age is below the
TTL (`cachetools` treats an entry as live while `now < inserted + ttl`). -/
def cacheLookup {V : Type} (now : Nat) (c : CacheT V) (k : String) : Option V :=
  match c.find? (fun e => e.1 = k) with
  | some e => if now < e.2.1 + 3600 then some e.2.2 else none
  | none => none

/-- `cache[key] = value`: insert or overwrite. -/
def cacheStore {V : Type} (now : Nat) (c : CacheT V) (k : String) (v : V) : CacheT V :=
  (k, now, v) :: c.filter (fun e => e.1 ≠ k)

/-- The query-string arguments of a `/search` request. -/
structure SearchArgs where
  q : String
  country : String
  page : Nat
deriving DecidableEq

/-- `request.args.get('q', '').strip().lower()`. -/
def effQuery (a : SearchArgs) : String := String.mk (lowerData (pyStrip a.q.data))

/-- `request.args.get('country', '').strip().upper()`. -/
def effCountry (a : SearchArgs) : String := String.mk ((pyStrip a.country.data).map Char.toUpper)

/-- `cache_key = f"{query}|{country}|{page}"` (source line 174). -/
def cacheKeyOf (a : SearchArgs) : String :=
  effQuery a ++ "|" ++ effCountry a ++ "|" ++ toString a.page

/-- Provider-query construction (source lines 181–188); `none` means the
endpoint returns `[]` immediately without an upstream call. -/
def buildQ (q c : String) : Option String :=
  if q ≠ "" && c ≠ "" then some (q ++ ",," ++ c)
  else if q ≠ "" then some q
  else if c ≠ "" then some (",," ++ c)
  else none

/-- One `/search` request (source lines 164–256, success path of the
provider calls; `upstream` is the geocoding provider).  Returns the JSON
response, the updated search cache and the number of outbound geocoding
calls the request performed. -/
def searchStep (okc : String → Bool) (fuzzy : String → Option String)
    (upstream : String → List GeoEntry) (now : Nat)
    (cache : CacheT (List SearchResult)) (args : SearchArgs) :
    List SearchResult × CacheT (List SearchResult) × Nat :=
  let q := effQuery args
  let c := effCountry args
  if !okc c && c ≠ "" then ([], cache, 0)
  else
    let ck := cacheKeyOf args
    let hit : Option (List SearchResult) :=
      match cacheLookup now cache ck with
      | some v => if v.isEmpty then none else some v
      | none => none
    match hit with
    | some v => (v, cache, 0)
    | none =>
      match buildQ q c with
      | none => ([], cache, 0)
      | some pq =>
        let fst := dedupPass fuzzy [] (upstream pq)
        let pag := sortSlice args.page fst.2
        let withFb : List SearchResult × Nat :=
          match (if pag.isEmpty && q = "" then List.lookup c FALLBACK_CITIES else none) with
          | some fcity =>
            (pag ++ (dedupPass fuzzy fst.1 (upstream (fcity ++ ",," ++ c))).2, 2)
          | none => (pag, 1)
        let fin := sortByName withFb.1
        (fin, cacheStore now cache ck fin, withFb.2)

/-! ### Forecast aggregation (`/forecast`, source lines 363–386) -/

/-- One 3-hour forecast sample: timestamp `entry['dt']`, temperature
`entry['main']['temp']`, and `entry['weather'][0]`'s description and
icon. -/
structure FSample where
  dt : Nat
  temp : ℚ
  description : String
  icon : String
deriving DecidableEq

/-- The per-date accumulator `daily_data[date]`. -/
structure DayAgg where
  temps : List ℚ
  descriptions : List String
  icons : List String
deriving DecidableEq

def pushAgg (a : DayAgg) (s : FSample) : DayAgg :=
  ⟨a.temps ++ [s.temp], a.descriptions ++ [s.description], a.icons ++ [s.icon]⟩

/-- Process one sample into `daily_data` (source lines 364–375).
A Python dict keeps keys in insertion order, so it is modelled as an
association list extended at the end for new dates. -/
def addSample (dateOf : Nat → String) (acc : List (String × DayAgg)) (s : FSample) :
    List (String × DayAgg) :=
  if (acc.lookup (dateOf s.dt)).isSome then
    acc.map (fun e => if e.1 = dateOf s.dt then (e.1, pushAgg e.2 s) else e)
  else acc ++ [(dateOf s.dt, ⟨[s.temp], [s.description], [s.icon]⟩)]

/-- `daily_data` after the grouping loop.  `dateOf` stands for
`datetime.fromtimestamp(dt).strftime('%Y-%m-%d')` (server-local calendar
date of the timestamp), an environment-dependent map kept abstract. -/
def groupDaily (dateOf : Nat → String) (samples : List FSample) : List (String × DayAgg) :=
  samples.foldl (addSample dateOf) []

/-- Python's `max(iterable, key=cnt)`: the first element of the
iteration attaining the maximal key (later elements replace the current
best only when strictly greater).  Applied by the source to `set(xs)`,
whose iteration order is unspecified; the enumeration is therefore taken
as the explicit argument. -/
def pyMaxKey (cnt : String → Nat) : List String → String
  | [] => ""
  | x :: xs => xs.foldl (fun best y => if cnt y > cnt best then y else best) x

/-- Round half to even (Python's `round`) to an integer. -/
def rhe (q : ℚ) : ℤ :=
  if q - ⌊q⌋ < 1/2 then ⌊q⌋
  else if q - ⌊q⌋ > 1/2 then ⌊q⌋ + 1
  else if ⌊q⌋ % 2 = 0 then ⌊q⌋ else ⌊q⌋ + 1

/-- Python `round(q, 1)` on exact values. -/
def round1 (q : ℚ) : ℚ := (rhe (10 * q) : ℚ) / 10

/-- One element of the emitted `forecast` array (source lines 381–386). -/
structure ForecastDay where
  date : String
  temp : ℚ
  description : String
  icon : String
deriving DecidableEq

/-- The per-date aggregation loop (source lines 377–386):
mean temperature rounded to 1 decimal, and
`max(set(xs), key=xs.count)` for description and icon, with the set
enumeration supplied by `setOrder`. -/
def buildForecast (dateOf : Nat → String) (setOrder : List String → List String)
    (samples : List FSample) : List ForecastDay :=
  (groupDaily dateOf samples).map (fun e =>
    { date := e.1,
      temp := round1 (e.2.temps.sum / (e.2.temps.length : ℚ)),
      description := pyMaxKey (fun s => e.2.descriptions.count s) (setOrder e.2.descriptions),
      icon := pyMaxKey (fun s => e.2.icons.count s) (setOrder e.2.icons) })

/-- The distinct elements of a list in order of first occurrence (the
tie-breaking order the specification prescribes). -/
def seenOrder : List String → List String
  | [] => []
  | x :: xs => x :: (seenOrder xs).filter (fun y => y ≠ x)

/-- `setOrder` is a legitimate model of Python's `set(l)` iteration:
it enumerates exactly the distinct elements of `l`, in some order. -/
def EnumOf (setOrder : List String → List String) : Prop :=
  ∀ l : List String, (setOrder l).Nodup ∧ ∀ x, x ∈ setOrder l ↔ x ∈ l

/-! ### Current weather (`/weather`, source lines 85–101 and 420–496) -/

/-- A JSON field expected to be numeric: a Python `int`, a Python
`float` (exact value), some other non-numeric value, or absent. -/
inductive JNum where
  | int (n : ℤ)
  | float (q : ℚ)
  | notNum
  | absent
deriving DecidableEq

/-- `isinstance(x, (int, float))`. -/
def JNum.isNumber : JNum → Bool
  | .int _ => true
  | .float _ => true
  | _ => false

/-- `isinstance(x, int)`. -/
def JNum.isIntType : JNum → Bool
  | .int _ => true
  | _ => false

def JNum.val : JNum → ℚ
  | .int n => (n : ℚ)
  | .float q => q
  | _ => 0

structure MainSec where
  temp : JNum
  feels_like : JNum
  humidity : JNum
deriving DecidableEq

structure WindSec where
  speed : JNum
deriving DecidableEq

structure CoordSec where
  lat : JNum
  lon : JNum
deriving DecidableEq

/-- One entry of the `weather` array; `""` encodes a missing/falsy
description or field. -/
structure WItem where
  wmain : String
  description : String
  icon : String
deriving DecidableEq

/-- The `weather` key's value: a list, or some non-list value (a present
non-list fails both `not data['weather']`-style truthiness handling and
the `isinstance(..., list)` check). -/
inductive WeatherSec where
  | items (l : List WItem)
  | notList
deriving DecidableEq

/-- A raw current-weather payload; `hasName`/`hasSys` record presence of
the `name`/`sys` keys (their contents are never read), the remaining
sections are `none` when the key is absent. -/
structure WPayload where
  hasName : Bool
  hasSys : Bool
  main : Option MainSec
  weather : Option WeatherSec
  wind : Option WindSec
  coord : Option CoordSec
deriving DecidableEq

/-- `validate_weather_data` (source lines 85–101): all six top-level
keys present; temp, feels-like, wind speed, lat, lon numeric and
humidity an `int`; the weather list non-empty with a truthy
description on its first entry. -/
def validate_weather_data (d : WPayload) : Bool :=
  (d.hasName && d.hasSys && d.main.isSome && d.weather.isSome
    && d.wind.isSome && d.coord.isSome) &&
  (match d.main, d.wind, d.coord with
   | some m, some w, some co =>
     m.temp.isNumber && m.feels_like.isNumber && m.humidity.isIntType
       && w.speed.isNumber && co.lat.isNumber && co.lon.isNumber
   | _, _, _ => false) &&
  (match d.weather with
   | some (.items (i :: _)) => decide (i.description ≠ "")
   | _ => false)

/-- A geocoding hit as read by the weather/forecast endpoints
(`geo_data[0]`): `lat`, `lon`, `name` read directly, `country` via
`.get('country', 'XX')`. -/
structure GeoHit where
  name : String
  country : Option String
  lat : ℚ
  lon : ℚ
deriving DecidableEq

/-- Failure of an outbound `requests.get`: an HTTP status error, a
transport failure, or any other exception. -/
inductive HttpFail where
  | status (code : Nat)
  | network
  | unexpected
deriving DecidableEq

/-- The status code returned to the client by `get_weather`'s exception
handlers (source lines 479–496). -/
def failCode : HttpFail → Nat
  | .status 401 => 401
  | .status 429 => 429
  | .status 404 => 404
  | .status _ => 500
  | .network => 500
  | .unexpected => 500

/-- The formatted current-weather response (source lines 463–475). -/
structure WeatherOut where
  city : String
  country : String
  temp : ℚ
  feels_like : ℚ
  wmain : String
  description : String
  humidity : ℚ
  wind_speed : ℚ
  icon : String
  lat : ℚ
  lon : ℚ
deriving DecidableEq

def firstWItem (d : WPayload) : WItem :=
  match d.weather with
  | some (.items (i :: _)) => i
  | _ => ⟨"", "", ""⟩

def mainOf (d : WPayload) : MainSec := d.main.getD ⟨.absent, .absent, .absent⟩

def windOf (d : WPayload) : WindSec := d.wind.getD ⟨.absent⟩

def coordOf (d : WPayload) : CoordSec := d.coord.getD ⟨.absent, .absent⟩

/-- The projection at source lines 463–475; `countryName` stands for
`get_country_name` over the `pycountry` table. -/
def formatWeather (countryName : String → String) (city : String) (cc : String)
    (d : WPayload) : WeatherOut :=
  { city := city
    country := countryName cc
    temp := (mainOf d).temp.val
    feels_like := (mainOf d).feels_like.val
    wmain := (firstWItem d).wmain
    description := (firstWItem d).description
    humidity := (mainOf d).humidity.val
    wind_speed := (windOf d).speed.val
    icon := (firstWItem d).icon
    lat := (coordOf d).lat.val
    lon := (coordOf d).lon.val }

/-- The formatted `/forecast` response body (cached by that endpoint). -/
structure ForecastOut where
  city : String
  country : String
  days : List ForecastDay
deriving DecidableEq

/-- The process-wide mutable state: the two TTL caches. -/
structure AppState where
  searchC : CacheT (List SearchResult)
  forecastC : CacheT ForecastOut
deriving DecidableEq

/-- Outcome of a `/weather` request: a formatted payload (HTTP 200) or
an error status code. -/
inductive WeatherResp where
  | ok (w : WeatherOut)
  | err (code : Nat)
deriving DecidableEq

/-- One `/weather` request (source lines 420–496).  `geo` and `wapi`
are the outbound geocoding and current-weather calls. -/
def getWeatherStep (okc : String → Bool) (countryName : String → String)
    (geo : String → Except HttpFail (List GeoHit))
    (wapi : ℚ → ℚ → Except HttpFail WPayload)
    (st : AppState) (loc? : Option String) : WeatherResp × AppState :=
  match loc? with
  | none => (.err 400, st)
  | some location =>
    if location = "" then (.err 400, st)
    else if !validate_location okc location then (.err 400, st)
    else
      match normalize_location okc location with
      | none => (.err 400, st)
      | some nl =>
        match geo nl with
        | .error e => (.err (failCode e), st)
        | .ok [] => (.err 404, st)
        | .ok (h :: _) =>
          match wapi h.lat h.lon with
          | .error e => (.err (failCode e), st)
          | .ok d =>
            if !validate_weather_data d then (.err 500, st)
            else (.ok (formatWeather countryName h.name (h.country.getD "XX") d), st)

/-- The dedup key carried by an emitted result object. -/
def resultKey (r : SearchResult) : DKey := (lowerStr r.name, r.country, r.lat, r.lon)

/-- The provider query string used on the main (non-fallback) path when
the effective query text is non-empty. -/
def mainQuery (q c : String) : String := if c ≠ "" then q ++ ",," ++ c else q

/-- The response computed and cached by a missed `/search` request with
a non-empty query text. -/
def searchResultOf (fuzzy : String → Option String) (upstream : String → List GeoEntry)
    (args : SearchArgs) : List SearchResult :=
  sortByName (sortSlice args.page
    (dedupPass fuzzy [] (upstream (mainQuery (effQuery args) (effCountry args)))).2)

/-- The samples falling on calendar date `d`, in sequence order. -/
def samplesFor (dateOf : Nat → String) (d : String) (samples : List FSample) : List FSample :=
  samples.filter (fun s => dateOf s.dt = d)

def aggOfSamples (l : List FSample) : DayAgg :=
  ⟨l.map (fun s => s.temp), l.map (fun s => s.description), l.map (fun s => s.icon)⟩

def extendAgg (a : DayAgg) (l : List FSample) : DayAgg :=
  ⟨a.temps ++ l.map (fun s => s.temp), a.descriptions ++ l.map (fun s => s.description),
   a.icons ++ l.map (fun s => s.icon)⟩

/-- The reverse of the first-occurrence enumeration: another legitimate
iteration order for Python's `set(...)`, used to exhibit the tie-break
ambiguity. -/
def revOrder (l : List String) : List String := (seenOrder l).reverse

/-- The specification's example: 8 three-hour samples on one date with
temperatures 10,12,14,16,12,10,14,12 and descriptions dominated by
"clear". -/
def eightSamples : List FSample :=
  [⟨0, 10, "clear", "01d"⟩, ⟨1, 12, "clear", "01d"⟩, ⟨2, 14, "clear", "01d"⟩,
   ⟨3, 16, "rain", "10d"⟩, ⟨4, 12, "clear", "01d"⟩, ⟨5, 10, "clear", "01d"⟩,
   ⟨6, 14, "rain", "10d"⟩, ⟨7, 12, "clear", "01d"⟩]

/-- Two samples on one date whose descriptions "rain" and "sun" are
tied at one occurrence each; "rain" occurs first. -/
def tieSamples : List FSample :=
  [⟨0, 10, "rain", "10d"⟩, ⟨1, 10, "sun", "01d"⟩]


/-! ### Lemmas about the character pipeline -/

theorem mem_dropTrail {p : Char → Bool} {c : Char} :
    ∀ {l : List Char}, c ∈ dropTrail p l → c ∈ l := by
  intro l
  induction l with
  | nil => simp [dropTrail]
  | cons a as ih =>
    intro h
    simp only [dropTrail] at h
    split at h
    · split at h
      · simp at h
      · simp at h
        simp [h]
    · rcases List.mem_cons.1 h with rfl | hr
      · exact List.mem_cons_self _ _
      · exact List.mem_cons_of_mem _ (ih hr)

theorem head?_dropTrail {p : Char → Bool} {c : Char} :
    ∀ {l : List Char}, (dropTrail p l).head? = some c → l.head? = some c := by
  intro l
  induction l with
  | nil => simp [dropTrail]
  | cons a as _ =>
    intro h
    simp only [dropTrail] at h
    split at h
    · split at h
      · simp at h
      · simp at h
        simp [h]
    · simp at h
      simp [h]

theorem getLast?_dropTrail {p : Char → Bool} {c : Char} :
    ∀ {l : List Char}, (dropTrail p l).getLast? = some c → p c = false := by
  intro l
  induction l with
  | nil => simp [dropTrail]
  | cons a as ih =>
    intro h
    simp only [dropTrail] at h
    split at h
    · split at h
      · simp at h
      · next hpa =>
        simp at h
        subst h
        simpa using hpa
    · next heq =>
      have hne : dropTrail p as ≠ [] := fun e => heq e
      obtain ⟨b, r', hbr⟩ : ∃ b r', dropTrail p as = b :: r' := by
        cases hdt : dropTrail p as with
        | nil => exact absurd hdt hne
        | cons b r' => exact ⟨b, r', rfl⟩
      rw [hbr, List.getLast?_cons_cons] at h
      exact ih (by rw [hbr]; exact h)

theorem head?_dropWhile_neg {p : Char → Bool} {c : Char} :
    ∀ {l : List Char}, (List.dropWhile p l).head? = some c → p c = false := by
  intro l
  induction l with
  | nil => simp
  | cons a as ih =>
    intro h
    rw [List.dropWhile_cons] at h
    split at h
    · exact ih h
    · next hpa =>
      simp at h
      subst h
      simpa using hpa

theorem mem_trimBoth {p : Char → Bool} {c : Char} {l : List Char}
    (h : c ∈ trimBoth p l) : c ∈ l :=
  (List.dropWhile_sublist p).subset (mem_dropTrail h)

theorem head?_trimBoth_neg {p : Char → Bool} {c : Char} {l : List Char}
    (h : (trimBoth p l).head? = some c) : p c = false :=
  head?_dropWhile_neg (head?_dropTrail h)

theorem getLast?_trimBoth_neg {p : Char → Bool} {c : Char} {l : List Char}
    (h : (trimBoth p l).getLast? = some c) : p c = false :=
  getLast?_dropTrail h

theorem mem_collapseRuns {p : Char → Bool} {rep c : Char} :
    ∀ {b : Bool} {l : List Char}, c ∈ collapseRuns p rep b l → c = rep ∨ (p c = false ∧ c ∈ l) := by
  intro b l
  induction l generalizing b with
  | nil => simp [collapseRuns]
  | cons a as ih =>
    intro h
    simp only [collapseRuns] at h
    split at h
    · split at h
      · rcases ih h with h1 | ⟨h2, h3⟩
        · exact Or.inl h1
        · exact Or.inr ⟨h2, List.mem_cons_of_mem _ h3⟩
      · rcases List.mem_cons.1 h with rfl | hr
        · exact Or.inl rfl
        · rcases ih hr with h1 | ⟨h2, h3⟩
          · exact Or.inl h1
          · exact Or.inr ⟨h2, List.mem_cons_of_mem _ h3⟩
    · next hpa =>
      rcases List.mem_cons.1 h with rfl | hr
      · exact Or.inr ⟨by simpa using hpa, List.mem_cons_self _ _⟩
      · rcases ih hr with h1 | ⟨h2, h3⟩
        · exact Or.inl h1
        · exact Or.inr ⟨h2, List.mem_cons_of_mem _ h3⟩

/-- Every character of a normalized city token is non-whitespace
(the pipeline collapses all whitespace to spaces and then replaces
spaces with hyphens). -/
theorem normCity_no_space {c : Char} {l : List Char}
    (h : c ∈ normCity l) : isSpace c = false := by
  simp only [normCity, stripDashes] at h
  have h1 : c ∈ collapseDashes ((pyStrip (collapseWs (pyStrip (subLinn false (pyStrip l))))).map
      (fun c => if c = ' ' then '-' else c)) := mem_trimBoth h
  rcases mem_collapseRuns h1 with rfl | ⟨_, h2⟩
  · rfl
  · rcases List.mem_map.1 h2 with ⟨c', hc', rfl⟩
    by_cases hsp : c' = ' '
    · subst hsp
      decide
    · simp only [if_neg hsp]
      have h4 : c' ∈ collapseWs (pyStrip (subLinn false (pyStrip l))) := mem_trimBoth hc'
      rcases mem_collapseRuns h4 with h5 | ⟨h5, _⟩
      · exact absurd h5 hsp
      · exact h5

/-- The normalized city token never starts with a hyphen. -/
theorem normCity_head_ne {c : Char} {l : List Char}
    (h : (normCity l).head? = some c) : c ≠ '-' := by
  simp only [normCity, stripDashes] at h
  have := head?_trimBoth_neg h
  simpa using this

/-- The normalized city token never ends with a hyphen. -/
theorem normCity_getLast_ne {c : Char} {l : List Char}
    (h : (normCity l).getLast? = some c) : c ≠ '-' := by
  simp only [normCity, stripDashes] at h
  have := getLast?_trimBoth_neg h
  simpa using this

theorem pySplit_no_sep {sep : Char} : ∀ {b : List Char}, sep ∉ b → pySplit sep b = [b] := by
  intro b
  induction b with
  | nil => intro _; rfl
  | cons c cs ih =>
    intro h
    have hc : ¬ c = sep := fun e => h (e ▸ List.mem_cons_self _ _)
    have hcs : sep ∉ cs := fun e => h (List.mem_cons_of_mem _ e)
    simp only [pySplit, if_neg hc, ih hcs]

theorem pySplit_append {sep : Char} {b : List Char} (hb : sep ∉ b) :
    ∀ {a : List Char}, sep ∉ a → pySplit sep (a ++ sep :: b) = [a, b] := by
  intro a
  induction a with
  | nil =>
    intro _
    simp [pySplit, pySplit_no_sep hb]
  | cons c a' ih =>
    intro h
    have hc : ¬ c = sep := fun e => h (e ▸ List.mem_cons_self _ _)
    have ha' : sep ∉ a' := fun e => h (List.mem_cons_of_mem _ e)
    simp only [List.cons_append, pySplit, if_neg hc, List.append_eq, ih ha']

/-- C3: for every valid input `"<city>,<CC>"` whose country part is a
real, already-canonical (trimmed, upper-case) ISO code and whose city
part still has at least 2 characters after normalization,
`normalize_location` returns `city-token,CC`: the country segment is
exactly CC, and the city token contains no whitespace and neither
starts nor ends with a hyphen.  The transformation applies, in source
order: split on comma, strip, upper-case the country, remove the
standalone word "linn", collapse whitespace runs, replace spaces with
hyphens, collapse repeated hyphens and trim boundary hyphens — the
city-side steps being exactly `normCity`. -/
theorem C3_normalize_location_valid_input (okc : String → Bool) (city cc : String)
    (hc1 : ',' ∉ city.data) (hc2 : ',' ∉ cc.data)
    (hccStrip : pyStrip cc.data = cc.data)
    (hccUpper : cc.data.map Char.toUpper = cc.data)
    (hokc : okc cc = true)
    (hlen : 2 ≤ (normCity city.data).length) :
    normalize_location okc (city ++ "," ++ cc)
        = some (String.mk (normCity city.data ++ ',' :: cc.data)) ∧
    (∀ ch ∈ normCity city.data, isSpace ch = false) ∧
    (∀ ch, (normCity city.data).head? = some ch → ch ≠ '-') ∧
    (∀ ch, (normCity city.data).getLast? = some ch → ch ≠ '-') := by
  refine ⟨?_, fun ch hch => normCity_no_space hch, fun ch hch => normCity_head_ne hch,
    fun ch hch => normCity_getLast_ne hch⟩
  have hdata : (city ++ "," ++ cc).data = city.data ++ ',' :: cc.data := by simp
  have hne : ¬ (city ++ "," ++ cc) = "" := by
    intro h
    have h2 := congrArg String.data h
    rw [hdata] at h2
    simp at h2
  unfold normalize_location
  rw [if_neg hne, hdata, pySplit_append hc2 hc1]
  dsimp only
  rw [hccStrip, hccUpper]
  have hmk : String.mk cc.data = cc := rfl
  rw [hmk, hokc]
  have hnl : ¬ (normCity city.data).length < 2 := by omega
  simp [hnl]

/-- Witness for C3 at the concrete input `"New  York,US"`. -/
theorem C3_normalize_location_valid_input_w :
    normalize_location (fun s => s = "US") ("New  York" ++ "," ++ "US")
        = some (String.mk (normCity ("New  York" : String).data ++ ',' :: ("US" : String).data)) ∧
    (∀ ch ∈ normCity ("New  York" : String).data, isSpace ch = false) ∧
    (∀ ch, (normCity ("New  York" : String).data).head? = some ch → ch ≠ '-') ∧
    (∀ ch, (normCity ("New  York" : String).data).getLast? = some ch → ch ≠ '-') :=
  C3_normalize_location_valid_input (fun s => s = "US") "New  York" "US"
    (by decide) (by decide) (by decide) (by decide) (by decide) (by decide)

/-- C4: `validate_location` accepts `"Tallinn,EE"` and rejects
`"Tallinn"` (no comma), `"X,EE"` (city shorter than 2 characters) and
`"Tallinn,Estonia"` (country part not exactly two upper-case letters);
moreover every input containing the phrase "unknown city"
(case-insensitively) is rejected, for any country table. -/
theorem C4_validate_location_cases (okc : String → Bool) (hok : okc "EE" = true) :
    (validate_location okc "Tallinn,EE" = true ∧
     validate_location okc "Tallinn" = false ∧
     validate_location okc "X,EE" = false ∧
     validate_location okc "Tallinn,Estonia" = false) ∧
    (∀ (s : String) (okc' : String → Bool),
        containsSub "unknown city".data (lowerData s.data) = true →
        validate_location okc' s = false) := by
  constructor
  · have h1 : validate_location okc "Tallinn,EE" = okc "EE" := rfl
    exact ⟨by rw [h1, hok], rfl, rfl, rfl⟩
  · intro s okc' h
    by_cases hs : s = ""
    · subst hs; rfl
    · unfold validate_location
      rw [if_neg hs, if_pos h]

/-- Witness for C4 with the country table `{EE}` and the
"unknown city" clause instantiated at `"Unknown City,EE"`. -/
theorem C4_validate_location_cases_w :
    (validate_location (fun s => s = "EE") "Tallinn,EE" = true ∧
     validate_location (fun s => s = "EE") "Tallinn" = false ∧
     validate_location (fun s => s = "EE") "X,EE" = false ∧
     validate_location (fun s => s = "EE") "Tallinn,Estonia" = false) ∧
    validate_location (fun s => s = "EE") "Unknown City,EE" = false :=
  ⟨(C4_validate_location_cases (fun s => s = "EE") (by decide)).1,
   (C4_validate_location_cases (fun s => s = "EE") (by decide)).2 "Unknown City,EE"
     (fun s => s = "EE") (by decide)⟩

/-! ### Deduplication and pagination lemmas -/

theorem dedupPass_keys (fuzzy : String → Option String) :
    ∀ (data : List GeoEntry) (seen : List DKey),
      ((dedupPass fuzzy seen data).2.map resultKey).Nodup ∧
      ∀ k ∈ (dedupPass fuzzy seen data).2.map resultKey, k ∉ seen := by
  intro data
  induction data with
  | nil => intro seen; simp [dedupPass]
  | cons loc rest ih =>
    intro seen
    simp only [dedupPass]
    split
    · exact ih seen
    · split
      · exact ih seen
      · next cc heq =>
        split
        · exact ih seen
        · next hnot =>
          obtain ⟨hnd, hnin⟩ := ih (entryKey cc loc :: seen)
          have hrk : resultKey (mkResult cc loc) = entryKey cc loc := rfl
          dsimp only
          rw [List.map_cons]
          constructor
          · refine List.nodup_cons.2 ⟨?_, hnd⟩
            intro hmem
            exact (hnin _ hmem) (hrk ▸ List.mem_cons_self _ _)
          · intro k hk
            rcases List.mem_cons.1 hk with rfl | hk'
            · rw [hrk]; exact hnot
            · intro hsk
              exact (hnin k hk') (List.mem_cons_of_mem _ hsk)

/-- C5: the dedup scan never emits two results with the same key
(lower-cased name, resolved country, lat, lon); in particular two raw
entries identical except for their region label yield exactly one
result, carrying the first entry's region. -/
theorem C5_dedup_unique :
    (∀ (fuzzy : String → Option String) (data : List GeoEntry),
        ((dedupPass fuzzy [] data).2.map resultKey).Nodup) ∧
    (∀ fuzzy : String → Option String,
        (dedupPass fuzzy []
          [⟨"Tallinn", "EE", some 59, some 24, some "Harju"⟩,
           ⟨"Tallinn", "EE", some 59, some 24, some "Harjumaa"⟩]).2
        = [⟨"Tallinn", "EE", some 59, some 24, some "Harju"⟩]) := by
  constructor
  · intro fuzzy data
    exact (dedupPass_keys fuzzy data []).1
  · intro fuzzy
    rfl

theorem getElem?_drop_add {α : Type} (l : List α) (n i : Nat) : (l.drop n)[i]? = l[n + i]? := by
  induction n generalizing l with
  | zero => simp
  | succ n ih =>
    cases l with
    | nil => simp
    | cons a as => simp [Nat.succ_add, ih as]

/-- C6: the search response is sorted alphabetically by name, and the
slice `[(page-1)*100 : page*100]` keeps exactly the entries of the
sorted sequence at positions `(page-1)*100 + i` for `i < 100`; with 250
deduplicated results and `page = 2` the slice has exactly 100 entries
(positions 101–200 of the sorted sequence, by the indexing clause). -/
theorem C6_sort_paginate :
    ∀ (rs : List SearchResult) (page i : Nat),
      List.Sorted nameLe (sortByName rs) ∧
      List.Sorted nameLe (sortSlice page rs) ∧
      ((sortSlice page rs)[i]? =
        if i < 100 then (sortByName rs)[(page - 1) * 100 + i]? else none) ∧
      ((sortByName rs).length = 250 → (sortSlice 2 rs).length = 100) := by
  intro rs page i
  have hsorted : List.Sorted nameLe (sortByName rs) := List.sorted_insertionSort nameLe rs
  refine ⟨hsorted, ?_, ?_, ?_⟩
  · exact hsorted.sublist ((List.take_sublist _ _).trans (List.drop_sublist _ _))
  · by_cases h : i < 100
    · rw [if_pos h]
      rw [sortSlice, List.getElem?_take_of_lt h, getElem?_drop_add]
    · rw [if_neg h]
      apply List.getElem?_eq_none
      calc (((sortByName rs).drop ((page - 1) * 100)).take 100).length ≤ 100 := by
            simp [List.length_take]
        _ ≤ i := by omega
  · intro hlen
    simp [sortSlice, List.length_take, List.length_drop, hlen]

/-- Witness for C6: a 250-entry result list whose second page has
exactly 100 entries. -/
theorem C6_sort_paginate_w :
    (sortSlice 2 ((List.range 250).map
        (fun n => ({ name := toString n, country := "EE", lat := none, lon := none,
                     state := none } : SearchResult)))).length = 100 :=
  (C6_sort_paginate _ 2 0).2.2.2
    (by simp only [sortByName, List.length_insertionSort, List.length_map, List.length_range])

/-! ### Search caching lemmas -/

theorem buildQ_pos {q c : String} (hq : q ≠ "") : buildQ q c = some (mainQuery q c) := by
  by_cases hc : c = ""
  · simp [buildQ, mainQuery, hq, hc]
  · simp [buildQ, mainQuery, hq, hc]

theorem cacheLookup_store_self {V : Type} (now now2 : Nat) (c : CacheT V) (k : String) (v : V) :
    cacheLookup now2 (cacheStore now c k v) k =
      if now2 < now + 3600 then some v else none := by
  simp [cacheLookup, cacheStore, List.find?_cons_of_pos]

/-- A missed request with valid (or empty) country, non-empty query
text and no live non-empty cache entry performs exactly one outbound
call, returns the computed response and stores it. -/
theorem searchStep_miss (okc : String → Bool) (fuzzy : String → Option String)
    (upstream : String → List GeoEntry) (now : Nat)
    (cache : CacheT (List SearchResult)) (args : SearchArgs)
    (hc : effCountry args ≠ "" → okc (effCountry args) = true)
    (hq : effQuery args ≠ "")
    (hmiss : cacheLookup now cache (cacheKeyOf args) = none ∨
             cacheLookup now cache (cacheKeyOf args) = some []) :
    searchStep okc fuzzy upstream now cache args =
      (searchResultOf fuzzy upstream args,
       cacheStore now cache (cacheKeyOf args) (searchResultOf fuzzy upstream args), 1) := by
  have hcond : (!okc (effCountry args) && decide (effCountry args ≠ "")) = false := by
    by_cases hcc : effCountry args = ""
    · simp [hcc]
    · simp [hc hcc, hcc]
  have hqd : decide (effQuery args = "") = false := by simp [hq]
  unfold searchStep
  dsimp only
  rw [hcond]
  simp only [Bool.false_eq_true, if_false]
  rcases hmiss with hm | hm
  · rw [hm]
    rw [buildQ_pos hq]
    dsimp only
    simp only [hqd, Bool.and_false, if_false]
    rfl
  · rw [hm]
    simp only [List.isEmpty_nil, if_true]
    rw [buildQ_pos hq]
    dsimp only
    simp only [hqd, Bool.and_false, if_false]
    rfl

/-- A request finding a live non-empty cache entry returns it unchanged
and performs no outbound call. -/
theorem searchStep_hit (okc : String → Bool) (fuzzy : String → Option String)
    (upstream : String → List GeoEntry) (now : Nat)
    (cache : CacheT (List SearchResult)) (args : SearchArgs) (v : List SearchResult)
    (hc : effCountry args ≠ "" → okc (effCountry args) = true)
    (hhit : cacheLookup now cache (cacheKeyOf args) = some v)
    (hv : v ≠ []) :
    searchStep okc fuzzy upstream now cache args = (v, cache, 0) := by
  have hcond : (!okc (effCountry args) && decide (effCountry args ≠ "")) = false := by
    by_cases hcc : effCountry args = ""
    · simp [hcc]
    · simp [hc hcc, hcc]
  have hve : v.isEmpty = false := by
    cases v with
    | nil => exact absurd rfl hv
    | cons a l => rfl
  unfold searchStep
  dsimp only
  rw [hcond]
  simp only [Bool.false_eq_true, if_false]
  rw [hhit]
  simp only [hve, Bool.false_eq_true, if_false]

/-- Counterexample to C2 as stated: with an upstream that returns no
entries, two identical `/search` requests issued at times 0 and 10
(well inside the 1-hour TTL) each perform an outbound geocoding call —
two calls in total, not one — because the empty list stored by the
first request fails the truthiness test `if cached_result:` used as
the cache-hit check. -/
theorem C2_cache_idempotence_cex :
    ((searchStep (fun _ => true) (fun _ => none) (fun _ => []) 0 []
        ⟨"tallinn", "", 1⟩).2.2 = 1) ∧
    ((searchStep (fun _ => true) (fun _ => none) (fun _ => [])
        10 (searchStep (fun _ => true) (fun _ => none) (fun _ => []) 0 []
              ⟨"tallinn", "", 1⟩).2.1
        ⟨"tallinn", "", 1⟩).2.2 = 1) ∧
    (10 < 0 + 3600) ∧ (1 + 1 ≠ 1) := by
  refine ⟨rfl, rfl, by omega, by omega⟩

/-- C2 (amended): two identical Search calls within the TTL window
issue exactly one outbound geocoding call **provided the first call
misses the cache, uses a non-empty query text with a valid (or absent)
country, and computes a non-empty result page** — the second call is
then served from the cache with zero outbound calls and returns the
same response; an identical call issued after TTL expiry misses the
cache again and issues a fresh outbound call.  (Without the
non-emptiness proviso the property fails, see the counterexample: an
empty cached page is treated as a miss; and a country-only search can
also issue a second, fallback call.) -/
theorem C2_cache_idempotence (okc : String → Bool) (fuzzy : String → Option String)
    (upstream : String → List GeoEntry) (now now2 now3 : Nat)
    (cache : CacheT (List SearchResult)) (args : SearchArgs)
    (hc : effCountry args ≠ "" → okc (effCountry args) = true)
    (hq : effQuery args ≠ "")
    (hmiss : cacheLookup now cache (cacheKeyOf args) = none)
    (hne : searchResultOf fuzzy upstream args ≠ [])
    (h2 : now2 < now + 3600) (h3 : now + 3600 ≤ now3) :
    (searchStep okc fuzzy upstream now cache args).2.2 = 1 ∧
    searchStep okc fuzzy upstream now2
        (searchStep okc fuzzy upstream now cache args).2.1 args
      = ((searchStep okc fuzzy upstream now cache args).1,
         (searchStep okc fuzzy upstream now cache args).2.1, 0) ∧
    (searchStep okc fuzzy upstream now3
        (searchStep okc fuzzy upstream now cache args).2.1 args).2.2 = 1 := by
  have h1 := searchStep_miss okc fuzzy upstream now cache args hc hq (Or.inl hmiss)
  refine ⟨by rw [h1], ?_, ?_⟩
  · rw [h1]
    exact searchStep_hit okc fuzzy upstream now2 _ args _ hc
      (by rw [cacheLookup_store_self, if_pos h2]) hne
  · rw [h1]
    have hexp : cacheLookup now3
        (cacheStore now cache (cacheKeyOf args) (searchResultOf fuzzy upstream args))
        (cacheKeyOf args) = none := by
      rw [cacheLookup_store_self, if_neg (by omega)]
    rw [searchStep_miss okc fuzzy upstream now3 _ args hc hq (Or.inl hexp)]

/-- Witness for C2 (amended): a query for "tallinn" with one upstream
hit, repeated at time 1 (hit) and at time 3600 (expired). -/
theorem C2_cache_idempotence_w :
    (searchStep (fun _ => false) (fun _ => none)
        (fun _ => [⟨"Tallinn", "EE", some 59, some 24, none⟩]) 0 []
        ⟨"tallinn", "", 1⟩).2.2 = 1 ∧
    searchStep (fun _ => false) (fun _ => none)
        (fun _ => [⟨"Tallinn", "EE", some 59, some 24, none⟩]) 1
        (searchStep (fun _ => false) (fun _ => none)
          (fun _ => [⟨"Tallinn", "EE", some 59, some 24, none⟩]) 0 []
          ⟨"tallinn", "", 1⟩).2.1 ⟨"tallinn", "", 1⟩
      = ((searchStep (fun _ => false) (fun _ => none)
            (fun _ => [⟨"Tallinn", "EE", some 59, some 24, none⟩]) 0 []
            ⟨"tallinn", "", 1⟩).1,
         (searchStep (fun _ => false) (fun _ => none)
            (fun _ => [⟨"Tallinn", "EE", some 59, some 24, none⟩]) 0 []
            ⟨"tallinn", "", 1⟩).2.1, 0) ∧
    (searchStep (fun _ => false) (fun _ => none)
        (fun _ => [⟨"Tallinn", "EE", some 59, some 24, none⟩]) 3600
        (searchStep (fun _ => false) (fun _ => none)
          (fun _ => [⟨"Tallinn", "EE", some 59, some 24, none⟩]) 0 []
          ⟨"tallinn", "", 1⟩).2.1 ⟨"tallinn", "", 1⟩).2.2 = 1 :=
  C2_cache_idempotence (fun _ => false) (fun _ => none)
    (fun _ => [⟨"Tallinn", "EE", some 59, some 24, none⟩]) 0 1 3600 []
    ⟨"tallinn", "", 1⟩ (by intro h; exact absurd rfl h) (by decide) rfl
    (by decide) (by omega) (by omega)

/-- C10: a `/search` request whose computed result page is empty stores
the empty list in the cache, but the hit test checks truthiness of the
retrieved value, so the stored empty list is treated as absent: an
identical request within the TTL window finds `some []` in the cache
yet performs the upstream geocoding call again. -/
theorem C10_empty_page_not_a_hit (okc : String → Bool) (fuzzy : String → Option String)
    (upstream : String → List GeoEntry) (now now2 : Nat)
    (cache : CacheT (List SearchResult)) (args : SearchArgs)
    (hc : effCountry args ≠ "" → okc (effCountry args) = true)
    (hq : effQuery args ≠ "")
    (hmiss : cacheLookup now cache (cacheKeyOf args) = none)
    (hres : searchResultOf fuzzy upstream args = [])
    (h2 : now2 < now + 3600) :
    (searchStep okc fuzzy upstream now cache args).2.2 = 1 ∧
    cacheLookup now2 (searchStep okc fuzzy upstream now cache args).2.1 (cacheKeyOf args)
      = some [] ∧
    (searchStep okc fuzzy upstream now2
        (searchStep okc fuzzy upstream now cache args).2.1 args).2.2 = 1 := by
  have h1 := searchStep_miss okc fuzzy upstream now cache args hc hq (Or.inl hmiss)
  have hstored : cacheLookup now2
      (cacheStore now cache (cacheKeyOf args) (searchResultOf fuzzy upstream args))
      (cacheKeyOf args) = some [] := by
    rw [cacheLookup_store_self, if_pos h2, hres]
  refine ⟨by rw [h1], by rw [h1]; exact hstored, ?_⟩
  rw [h1]
  rw [searchStep_miss okc fuzzy upstream now2 _ args hc hq (Or.inr (hres ▸ hstored))]

/-- Witness for C10: the empty-upstream scenario at times 0 and 10. -/
theorem C10_empty_page_not_a_hit_w :
    (searchStep (fun _ => true) (fun _ => none) (fun _ => []) 0 []
        ⟨"tallinn", "", 1⟩).2.2 = 1 ∧
    cacheLookup 10 (searchStep (fun _ => true) (fun _ => none) (fun _ => []) 0 []
        ⟨"tallinn", "", 1⟩).2.1 (cacheKeyOf ⟨"tallinn", "", 1⟩) = some [] ∧
    (searchStep (fun _ => true) (fun _ => none) (fun _ => []) 10
        (searchStep (fun _ => true) (fun _ => none) (fun _ => []) 0 []
          ⟨"tallinn", "", 1⟩).2.1 ⟨"tallinn", "", 1⟩).2.2 = 1 :=
  C10_empty_page_not_a_hit (fun _ => true) (fun _ => none) (fun _ => []) 0 10 []
    ⟨"tallinn", "", 1⟩ (fun _ => rfl) (by decide) rfl rfl (by omega)

/-! ### Forecast grouping lemmas -/

theorem extendAgg_nil (a : DayAgg) : extendAgg a [] = a := by
  cases a; simp [extendAgg]

theorem extendAgg_push (a : DayAgg) (s : FSample) (l : List FSample) :
    extendAgg (pushAgg a s) l = extendAgg a (s :: l) := by
  cases a; simp [extendAgg, pushAgg]

theorem extendAgg_single (s : FSample) (l : List FSample) :
    extendAgg ⟨[s.temp], [s.description], [s.icon]⟩ l = aggOfSamples (s :: l) := by
  simp [extendAgg, aggOfSamples]

theorem lookup_map_update (d d' : String) (f : DayAgg → DayAgg) :
    ∀ acc : List (String × DayAgg),
      (acc.map (fun e => if e.1 = d then (e.1, f e.2) else e)).lookup d' =
        if d' = d then (acc.lookup d).map f else acc.lookup d' := by
  intro acc
  induction acc with
  | nil => by_cases hd : d' = d <;> simp [hd]
  | cons e es ih =>
    obtain ⟨k, v⟩ := e
    simp only [List.map_cons]
    by_cases he : k = d
    · subst he
      simp only [if_pos rfl]
      by_cases hd : d' = k
      · subst hd
        simp [List.lookup_cons, ih]
      · have h1 : (d' == k) = false := by simp [hd]
        simp [List.lookup_cons, h1, ih, hd]
    · simp only [if_neg (by simpa using he)]
      by_cases hd : d' = k
      · subst hd
        have hne : ¬ d' = d := he
        simp [List.lookup_cons, hne]
      · have h1 : (d' == k) = false := by simp [hd]
        by_cases hdd : d' = d
        · have h2 : (d == k) = false := by
            simp only [beq_eq_false_iff_ne, ne_eq]
            intro h
            exact hd (hdd.trans h)
          subst hdd
          simp [List.lookup_cons, h1, h2, ih]
        · simp [List.lookup_cons, h1, ih, hdd]

theorem lookup_append_pair (d' : String) :
    ∀ (acc bcc : List (String × DayAgg)),
      (acc ++ bcc).lookup d' =
        match acc.lookup d' with
        | some v => some v
        | none => bcc.lookup d' := by
  intro acc bcc
  induction acc with
  | nil => simp
  | cons e es ih =>
    by_cases hd : d' = e.1
    · simp [List.lookup, hd]
    · have hne : (d' == e.1) = false := by simp [hd]
      simp [List.lookup, hne, ih]

theorem lookup_eq_none_iff (d : String) :
    ∀ acc : List (String × DayAgg), acc.lookup d = none ↔ d ∉ acc.map Prod.fst := by
  intro acc
  induction acc with
  | nil => simp
  | cons e es ih =>
    by_cases hd : d = e.1
    · simp [List.lookup, hd]
    · have hne : (d == e.1) = false := by simp [hd]
      simp [List.lookup, hne, ih, hd]

theorem lookup_of_mem_nodup {d : String} {a : DayAgg} :
    ∀ {l : List (String × DayAgg)}, (l.map Prod.fst).Nodup → (d, a) ∈ l →
      l.lookup d = some a := by
  intro l
  induction l with
  | nil => simp
  | cons e es ih =>
    intro hnd hmem
    rcases List.mem_cons.1 hmem with rfl | hmem'
    · simp [List.lookup]
    · have hd : d ≠ e.1 := by
        intro h
        have : e.1 ∈ es.map Prod.fst :=
          List.mem_map.2 ⟨(d, a), hmem', by simp [h]⟩
        exact (List.nodup_cons.1 hnd).1 this
      have hne : (d == e.1) = false := by simp [hd]
      simp only [List.lookup, hne]
      exact ih (List.nodup_cons.1 hnd).2 hmem'

theorem addSample_keys (dateOf : Nat → String) (acc : List (String × DayAgg)) (s : FSample)
    (hnd : (acc.map Prod.fst).Nodup) :
    ((addSample dateOf acc s).map Prod.fst).Nodup := by
  unfold addSample
  split
  · have hkeys : (acc.map (fun e => if e.1 = dateOf s.dt then (e.1, pushAgg e.2 s) else e)).map
        Prod.fst = acc.map Prod.fst := by
      rw [List.map_map]
      apply List.map_congr_left
      intro e _
      by_cases he : e.1 = dateOf s.dt <;> simp [he]
    rw [hkeys]
    exact hnd
  · next habs =>
    have hnone : acc.lookup (dateOf s.dt) = none := by
      cases h : acc.lookup (dateOf s.dt) with
      | none => rfl
      | some v => exact absurd (by simp [h]) habs
    have hnotmem : dateOf s.dt ∉ acc.map Prod.fst := (lookup_eq_none_iff _ acc).1 hnone
    rw [List.map_append]
    simp only [List.map_cons, List.map_nil]
    rw [List.nodup_append]
    exact ⟨hnd, List.nodup_singleton _, by simpa using hnotmem⟩

theorem addSample_lookup (dateOf : Nat → String) (acc : List (String × DayAgg)) (s : FSample)
    (d' : String) :
    (addSample dateOf acc s).lookup d' =
      if d' = dateOf s.dt then
        some (match acc.lookup (dateOf s.dt) with
              | some a => pushAgg a s
              | none => ⟨[s.temp], [s.description], [s.icon]⟩)
      else acc.lookup d' := by
  by_cases hsome : (acc.lookup (dateOf s.dt)).isSome = true
  · obtain ⟨a, ha⟩ := Option.isSome_iff_exists.1 hsome
    unfold addSample
    rw [if_pos hsome, lookup_map_update (dateOf s.dt) d' (fun x => pushAgg x s) acc, ha]
    by_cases hd : d' = dateOf s.dt <;> simp [hd]
  · have hnone : acc.lookup (dateOf s.dt) = none := by
      cases h : acc.lookup (dateOf s.dt) with
      | none => rfl
      | some v => exact absurd (by simp [h]) hsome
    unfold addSample
    rw [if_neg hsome, lookup_append_pair, hnone]
    by_cases hd : d' = dateOf s.dt
    · subst hd
      rw [hnone]
      simp
    · rw [if_neg hd]
      have h1 : (d' == dateOf s.dt) = false := by simp [hd]
      cases hacc : acc.lookup d' <;> simp [List.lookup_cons, h1]

theorem groupDaily_fold (dateOf : Nat → String) :
    ∀ (samples : List FSample) (acc : List (String × DayAgg)),
      (acc.map Prod.fst).Nodup →
      ((samples.foldl (addSample dateOf) acc).map Prod.fst).Nodup ∧
      ∀ d' : String,
        (samples.foldl (addSample dateOf) acc).lookup d' =
          match acc.lookup d' with
          | some a => some (extendAgg a (samplesFor dateOf d' samples))
          | none => if samplesFor dateOf d' samples = [] then none
                    else some (aggOfSamples (samplesFor dateOf d' samples)) := by
  intro samples
  induction samples with
  | nil =>
    intro acc hnd
    refine ⟨hnd, fun d' => ?_⟩
    cases h : acc.lookup d' <;> simp [samplesFor, extendAgg_nil, h]
  | cons s rest ih =>
    intro acc hnd
    rw [List.foldl_cons]
    obtain ⟨ih1, ih2⟩ := ih (addSample dateOf acc s) (addSample_keys dateOf acc s hnd)
    refine ⟨ih1, fun d' => ?_⟩
    rw [ih2 d', addSample_lookup]
    by_cases hd : d' = dateOf s.dt
    · have hfil : samplesFor dateOf d' (s :: rest) = s :: samplesFor dateOf d' rest := by
        simp [samplesFor, List.filter_cons, hd.symm]
      rw [if_pos hd, hfil, ← hd]
      cases h : acc.lookup d' with
      | some a => simp [extendAgg_push]
      | none => simp [extendAgg_single]
    · have hsd : ¬ dateOf s.dt = d' := fun h => hd h.symm
      have hfil : samplesFor dateOf d' (s :: rest) = samplesFor dateOf d' rest := by
        simp [samplesFor, List.filter_cons, hsd]
      rw [if_neg hd, hfil]

theorem groupDaily_keys (dateOf : Nat → String) (samples : List FSample) :
    ((groupDaily dateOf samples).map Prod.fst).Nodup :=
  (groupDaily_fold dateOf samples [] (by simp)).1

theorem groupDaily_lookup (dateOf : Nat → String) (samples : List FSample) (d : String) :
    (groupDaily dateOf samples).lookup d =
      if samplesFor dateOf d samples = [] then none
      else some (aggOfSamples (samplesFor dateOf d samples)) := by
  have h := (groupDaily_fold dateOf samples [] (by simp)).2 d
  simpa [groupDaily] using h

/-- Every entry of `daily_data` holds exactly the temperatures,
descriptions and icons of the samples falling on its date, in sequence
order. -/
theorem groupDaily_mem {dateOf : Nat → String} {samples : List FSample} {d : String} {a : DayAgg}
    (h : (d, a) ∈ groupDaily dateOf samples) :
    samplesFor dateOf d samples ≠ [] ∧ a = aggOfSamples (samplesFor dateOf d samples) := by
  have hl := lookup_of_mem_nodup (groupDaily_keys dateOf samples) h
  rw [groupDaily_lookup] at hl
  split at hl
  · exact absurd hl (by simp)
  · next hne => exact ⟨hne, (Option.some_inj.1 hl).symm⟩

/-! ### Most-frequent-value selection lemmas -/

theorem pyMaxKey_foldl (cnt : String → Nat) :
    ∀ (xs : List String) (best : String),
      (xs.foldl (fun b y => if cnt y > cnt b then y else b) best ∈ best :: xs) ∧
      cnt best ≤ cnt (xs.foldl (fun b y => if cnt y > cnt b then y else b) best) ∧
      ∀ y ∈ xs, cnt y ≤ cnt (xs.foldl (fun b y => if cnt y > cnt b then y else b) best) := by
  intro xs
  induction xs with
  | nil => intro best; simp
  | cons x rest ih =>
    intro best
    rw [List.foldl_cons]
    obtain ⟨ihmem, ihbest, ihall⟩ := ih (if cnt x > cnt best then x else best)
    have hbb : cnt best ≤ cnt (if cnt x > cnt best then x else best) := by
      split <;> omega
    have hxb : cnt x ≤ cnt (if cnt x > cnt best then x else best) := by
      split <;> omega
    refine ⟨?_, le_trans hbb ihbest, fun y hy => ?_⟩
    · rcases List.mem_cons.1 ihmem with h | h
      · rw [h]
        split
        · exact List.mem_cons_of_mem _ (List.mem_cons_self _ _)
        · exact List.mem_cons_self _ _
      · exact List.mem_cons_of_mem _ (List.mem_cons_of_mem _ h)
    · rcases List.mem_cons.1 hy with rfl | h
      · exact le_trans hxb ihbest
      · exact ihall y h

/-- Python's `max(enum, key=cnt)` over a non-empty enumeration returns
an element of the enumeration attaining the maximal key. -/
theorem pyMaxKey_mem_max (cnt : String → Nat) (l : List String) (hl : l ≠ []) :
    pyMaxKey cnt l ∈ l ∧ ∀ y ∈ l, cnt y ≤ cnt (pyMaxKey cnt l) := by
  cases l with
  | nil => exact absurd rfl hl
  | cons x xs =>
    obtain ⟨hmem, hbest, hall⟩ := pyMaxKey_foldl cnt xs x
    refine ⟨hmem, fun y hy => ?_⟩
    rcases List.mem_cons.1 hy with rfl | h
    · exact hbest
    · exact hall y h

theorem seenOrder_nodup : ∀ l : List String, (seenOrder l).Nodup := by
  intro l
  induction l with
  | nil => simp [seenOrder]
  | cons x xs ih =>
    simp only [seenOrder]
    refine List.nodup_cons.2 ⟨?_, ih.filter _⟩
    intro hmem
    have h2 := (List.mem_filter.1 hmem).2
    simp at h2

theorem mem_seenOrder : ∀ (l : List String) (x : String), x ∈ seenOrder l ↔ x ∈ l := by
  intro l
  induction l with
  | nil => intro x; simp [seenOrder]
  | cons a as ih =>
    intro x
    simp only [seenOrder, List.mem_cons, List.mem_filter]
    constructor
    · rintro (rfl | ⟨h1, _⟩)
      · exact Or.inl rfl
      · exact Or.inr ((ih x).1 h1)
    · rintro (rfl | h)
      · exact Or.inl rfl
      · by_cases hx : x = a
        · exact Or.inl hx
        · exact Or.inr ⟨(ih x).2 h, by simpa using hx⟩

theorem EnumOf_seenOrder : EnumOf seenOrder :=
  fun l => ⟨seenOrder_nodup l, fun x => mem_seenOrder l x⟩

theorem EnumOf_revOrder : EnumOf revOrder := by
  intro l
  refine ⟨List.nodup_reverse.2 (seenOrder_nodup l), fun x => ?_⟩
  rw [revOrder, List.mem_reverse]
  exact mem_seenOrder l x

/-- C7: every emitted ForecastDay temperature is the arithmetic mean of
that date's sample temperatures rounded to one decimal (exact-rational
model of the source's float arithmetic); in particular the 8-sample
example yields exactly 12.5. -/
theorem C7_mean_temperature :
    (∀ (dateOf : Nat → String) (setOrder : List String → List String)
        (samples : List FSample) (fd : ForecastDay),
        fd ∈ buildForecast dateOf setOrder samples →
        fd.temp = round1 ((((samplesFor dateOf fd.date samples).map (fun s => s.temp)).sum) /
          ((samplesFor dateOf fd.date samples).length : ℚ))) ∧
    (buildForecast (fun _ => "2025-01-01") seenOrder eightSamples).map (fun fd => fd.temp)
      = [25/2] := by
  constructor
  · intro dateOf so samples fd hfd
    simp only [buildForecast, List.mem_map] at hfd
    obtain ⟨e, he, rfl⟩ := hfd
    obtain ⟨d, a⟩ := e
    obtain ⟨-, ha⟩ := groupDaily_mem he
    subst ha
    simp [aggOfSamples]
  · with_unfolding_all decide

/-- Witness for C7: the 8-sample example, whose emitted day is
`⟨"2025-01-01", 12.5, "clear", "01d"⟩`. -/
theorem C7_mean_temperature_w :
    (⟨"2025-01-01", 25/2, "clear", "01d"⟩ : ForecastDay).temp
      = round1 ((((samplesFor (fun _ => "2025-01-01") "2025-01-01" eightSamples).map
            (fun s => s.temp)).sum) /
          ((samplesFor (fun _ => "2025-01-01") "2025-01-01" eightSamples).length : ℚ)) :=
  C7_mean_temperature.1 (fun _ => "2025-01-01") seenOrder eightSamples
    ⟨"2025-01-01", 25/2, "clear", "01d"⟩ (by with_unfolding_all decide)

/-- Counterexample to C1 as stated: the source computes the most common
description with `max(set(descriptions), key=descriptions.count)`, and
the iteration order of a Python `set` is unspecified (hash-dependent),
not first-occurrence order.  The reversed first-occurrence enumeration
`revOrder` is a legitimate set enumeration (first conjunct), yet under
it the date with tied descriptions "rain" (first seen) and "sun" emits
"sun", while the claimed first-seen-wins rule demands "rain". -/
theorem C1_first_seen_tie_break_cex :
    EnumOf revOrder ∧
    (buildForecast (fun _ => "2025-01-01") revOrder tieSamples).map (fun fd => fd.description)
      = ["sun"] ∧
    pyMaxKey (fun s => (["rain", "sun"] : List String).count s) (seenOrder ["rain", "sun"])
      = "rain" ∧
    ("sun" : String) ≠ "rain" :=
  ⟨EnumOf_revOrder, by with_unfolding_all decide, by decide, by decide⟩

/-- C1 (amended): for every legitimate enumeration of the distinct
values (any possible `set` iteration order), the emitted ForecastDay
carries a description and an icon that occur among that date's samples
and attain the maximal occurrence count; which of several tied
maximizers is selected depends on the unspecified enumeration order,
not necessarily on order of first appearance. -/
theorem C1_most_common_selection :
    ∀ (dateOf : Nat → String) (setOrder : List String → List String),
      EnumOf setOrder →
      ∀ (samples : List FSample) (fd : ForecastDay),
        fd ∈ buildForecast dateOf setOrder samples →
        (fd.description ∈ (samplesFor dateOf fd.date samples).map (fun s => s.description) ∧
         ∀ y ∈ (samplesFor dateOf fd.date samples).map (fun s => s.description),
           ((samplesFor dateOf fd.date samples).map (fun s => s.description)).count y ≤
             ((samplesFor dateOf fd.date samples).map (fun s => s.description)).count
               fd.description) ∧
        (fd.icon ∈ (samplesFor dateOf fd.date samples).map (fun s => s.icon) ∧
         ∀ y ∈ (samplesFor dateOf fd.date samples).map (fun s => s.icon),
           ((samplesFor dateOf fd.date samples).map (fun s => s.icon)).count y ≤
             ((samplesFor dateOf fd.date samples).map (fun s => s.icon)).count fd.icon) := by
  intro dateOf so hso samples fd hfd
  have main : ∀ L : List String, L ≠ [] →
      pyMaxKey (fun s => L.count s) (so L) ∈ L ∧
      ∀ y ∈ L, L.count y ≤ L.count (pyMaxKey (fun s => L.count s) (so L)) := by
    intro L hL
    obtain ⟨hnd, hmem⟩ := hso L
    have hso_ne : so L ≠ [] := by
      obtain ⟨x, hx⟩ := List.exists_mem_of_ne_nil L hL
      exact List.ne_nil_of_mem ((hmem x).2 hx)
    obtain ⟨hwin, hmax⟩ := pyMaxKey_mem_max (fun s => L.count s) (so L) hso_ne
    exact ⟨(hmem _).1 hwin, fun y hy => hmax y ((hmem y).2 hy)⟩
  simp only [buildForecast, List.mem_map] at hfd
  obtain ⟨e, he, rfl⟩ := hfd
  obtain ⟨d, a⟩ := e
  obtain ⟨hne, ha⟩ := groupDaily_mem he
  subst ha
  constructor
  · have hLne : (samplesFor dateOf d samples).map (fun s => s.description) ≠ [] :=
      fun h => hne (List.map_eq_nil_iff.1 h)
    simpa [aggOfSamples] using main _ hLne
  · have hLne : (samplesFor dateOf d samples).map (fun s => s.icon) ≠ [] :=
      fun h => hne (List.map_eq_nil_iff.1 h)
    simpa [aggOfSamples] using main _ hLne

/-- Witness for C1 (amended): the tied two-sample example under the
first-occurrence enumeration, where the emitted day is
`⟨"2025-01-01", 10, "rain", "10d"⟩`. -/
theorem C1_most_common_selection_w :
    ((⟨"2025-01-01", 10, "rain", "10d"⟩ : ForecastDay).description
        ∈ (samplesFor (fun _ => "2025-01-01") "2025-01-01" tieSamples).map
            (fun s => s.description) ∧
     ∀ y ∈ (samplesFor (fun _ => "2025-01-01") "2025-01-01" tieSamples).map
            (fun s => s.description),
       ((samplesFor (fun _ => "2025-01-01") "2025-01-01" tieSamples).map
            (fun s => s.description)).count y ≤
         ((samplesFor (fun _ => "2025-01-01") "2025-01-01" tieSamples).map
            (fun s => s.description)).count
           (⟨"2025-01-01", 10, "rain", "10d"⟩ : ForecastDay).description) ∧
    ((⟨"2025-01-01", 10, "rain", "10d"⟩ : ForecastDay).icon
        ∈ (samplesFor (fun _ => "2025-01-01") "2025-01-01" tieSamples).map (fun s => s.icon) ∧
     ∀ y ∈ (samplesFor (fun _ => "2025-01-01") "2025-01-01" tieSamples).map (fun s => s.icon),
       ((samplesFor (fun _ => "2025-01-01") "2025-01-01" tieSamples).map
            (fun s => s.icon)).count y ≤
         ((samplesFor (fun _ => "2025-01-01") "2025-01-01" tieSamples).map
            (fun s => s.icon)).count (⟨"2025-01-01", 10, "rain", "10d"⟩ : ForecastDay).icon) :=
  C1_most_common_selection (fun _ => "2025-01-01") seenOrder EnumOf_seenOrder tieSamples
    ⟨"2025-01-01", 10, "rain", "10d"⟩ (by with_unfolding_all decide)

/-- C8: a `/weather` request never writes to either cache — on every
branch (missing or invalid location, geocoding failure or empty result,
weather-provider failure, invalid payload, and success) the application
state is returned unchanged: current-weather responses are not cached. -/
theorem C8_weather_no_cache_writes :
    ∀ (okc : String → Bool) (cn : String → String)
      (geo : String → Except HttpFail (List GeoHit))
      (wapi : ℚ → ℚ → Except HttpFail WPayload)
      (st : AppState) (loc? : Option String),
      (getWeatherStep okc cn geo wapi st loc?).2 = st := by
  intro okc cn geo wapi st loc?
  unfold getWeatherStep
  repeat' split
  all_goals rfl

/-- C9: when the current-weather payload fails validation (missing
section, wrong numeric kind, empty condition list, ...), the `/weather`
endpoint answers with status 500 and no formatted result, and the
caches are untouched. -/
theorem C9_invalid_payload_500 (okc : String → Bool) (cn : String → String)
    (geo : String → Except HttpFail (List GeoHit))
    (wapi : ℚ → ℚ → Except HttpFail WPayload)
    (st : AppState) (loc nl : String) (h0 : GeoHit) (t : List GeoHit) (d : WPayload)
    (hval : validate_location okc loc = true)
    (hnorm : normalize_location okc loc = some nl)
    (hgeo : geo nl = .ok (h0 :: t))
    (hw : wapi h0.lat h0.lon = .ok d)
    (hbad : validate_weather_data d = false) :
    getWeatherStep okc cn geo wapi st (some loc) = (.err 500, st) := by
  have hne : ¬ loc = "" := by
    intro h
    rw [h] at hval
    have : validate_location okc "" = false := rfl
    rw [this] at hval
    exact Bool.false_ne_true hval
  unfold getWeatherStep
  dsimp only
  rw [if_neg hne, hval]
  simp only [Bool.not_true, Bool.false_eq_true, if_false]
  rw [hnorm]
  dsimp only
  rw [hgeo]
  dsimp only
  rw [hw]
  dsimp only
  rw [hbad]
  rfl

/-- Witness for C9: a payload whose `wind` section is missing. -/
theorem C9_invalid_payload_500_w :
    getWeatherStep (fun s => s = "EE") (fun _ => "Estonia")
      (fun _ => .ok [⟨"Tallinn", some "EE", 59, 24⟩])
      (fun _ _ => .ok ⟨true, true, some ⟨.float 5, .float 3, .int 80⟩,
          some (.items [⟨"Clouds", "overcast clouds", "04d"⟩]), none,
          some ⟨.float 59, .float 24⟩⟩)
      ⟨[], []⟩ (some "Tallinn,EE") = (.err 500, ⟨[], []⟩) :=
  C9_invalid_payload_500 (fun s => s = "EE") (fun _ => "Estonia")
    (fun _ => .ok [⟨"Tallinn", some "EE", 59, 24⟩])
    (fun _ _ => .ok ⟨true, true, some ⟨.float 5, .float 3, .int 80⟩,
        some (.items [⟨"Clouds", "overcast clouds", "04d"⟩]), none,
        some ⟨.float 59, .float 24⟩⟩)
    ⟨[], []⟩ "Tallinn,EE" "Tallinn,EE" ⟨"Tallinn", some "EE", 59, 24⟩ []
    ⟨true, true, some ⟨.float 5, .float 3, .int 80⟩,
      some (.items [⟨"Clouds", "overcast clouds", "04d"⟩]), none, some ⟨.float 59, .float 24⟩⟩
    (by decide) (by decide) rfl rfl (by decide)
